import Mathlib

/-!
Shallow embedding of the request-routing gateway's core functions, translated
from the TypeScript source:

* `lib/error-rule-detector` (`ErrorRuleDetector.reload` / `.detect`),
* `lib/error-override-validator` (`validateErrorOverrideResponse`),
* `lib/proxy-agent` (`createProxyAgentForProvider`),
* `app/v1/_lib/proxy/others.ts` (`adjustTSeriesUsage`, `simpleHash`,
  `getUserIdFromPool`).

JavaScript string primitives (`toLowerCase`, `trim`, `includes`) are modelled
over `List Char`; external library calls (`safe-regex`, `new RegExp(p, "i")`,
`new URL`) are passed in as explicit function parameters, since their code is
not part of the repository.
-/

namespace CCH

/-- Model of JS `String.prototype.toLowerCase` restricted to ASCII case
mapping (all patterns and messages relevant to the rules are ASCII). -/
def lowerChar (c : Char) : Char :=
  if 65 ≤ c.toNat ∧ c.toNat ≤ 90 then Char.ofNat (c.toNat + 32) else c

/-- JS `s.toLowerCase()`. -/
def jsToLower (s : String) : String :=
  ⟨s.data.map lowerChar⟩

/-- Whitespace set trimmed by JS `String.prototype.trim` (ASCII part). -/
def isJsWs (c : Char) : Bool :=
  c = ' ' ∨ c = '\t' ∨ c = '\n' ∨ c = '\r' ∨ c.toNat = 11 ∨ c.toNat = 12

/-- JS `s.trim()`. -/
def jsTrim (s : String) : String :=
  ⟨((s.data.dropWhile isJsWs).reverse.dropWhile isJsWs).reverse⟩

/-- Whether `needle` occurs as a contiguous substring of `hay`. -/
def listInfix (needle : List Char) : List Char → Bool
  | [] => needle.isEmpty
  | c :: t => needle.isPrefixOf (c :: t) || listInfix needle t

/-- JS `hay.includes(needle)`. -/
def jsIncludes (hay needle : String) : Bool :=
  listInfix needle.data hay.data

/-! ## JSON model (for `overrideResponse` payloads) -/
/-- JSON values as stored in the `override_response` jsonb column.  Numbers
are restricted to integers (the overrides in scope carry no fractional
numbers); object fields are kept in insertion order with unique keys, as
Postgres jsonb delivers them. -/
inductive Json where
  | null
  | bool (b : Bool)
  | num (n : Int)
  | str (s : String)
  | arr (xs : List Json)
  | obj (fields : List (String × Json))

/-- JS property read `o[k]` on an object's field list (first occurrence;
jsonb keys are unique). -/
def jGet (fields : List (String × Json)) (k : String) : Option Json :=
  (fields.find? (fun e => e.1 = k)).map (·.2)

/-- JS truthiness of a JSON value (`if (x)`). -/
def jsTruthy : Json → Bool
  | .null => false
  | .bool b => b
  | .num n => n ≠ 0
  | .str s => s ≠ ""
  | .arr _ => true
  | .obj _ => true

/-- UTF-8 byte count of one character (what `TextEncoder().encode`
contributes per code point). -/
def charUtf8Len (c : Char) : Nat :=
  if c.toNat < 0x80 then 1
  else if c.toNat < 0x800 then 2
  else if c.toNat < 0x10000 then 3
  else 4

/-- UTF-8 byte length of a string. -/
def utf8Len (s : String) : Nat :=
  s.data.foldl (fun n c => n + charUtf8Len c) 0

def hexDigitChar (n : Nat) : Char :=
  if n < 10 then Char.ofNat (48 + n) else Char.ofNat (87 + n)

/-- Escaping of one character inside a `JSON.stringify` string literal. -/
def jsonEscapeChar (c : Char) : String :=
  if c = '"' then "\\\""
  else if c = '\\' then "\\\\"
  else if c.toNat = 8 then "\\b"
  else if c = '\t' then "\\t"
  else if c = '\n' then "\\n"
  else if c.toNat = 12 then "\\f"
  else if c = '\r' then "\\r"
  else if c.toNat < 32 then
    "\\u00" ++ String.singleton (hexDigitChar (c.toNat / 16)) ++
      String.singleton (hexDigitChar (c.toNat % 16))
  else String.singleton c

/-- Serialization of a string value under `JSON.stringify`. -/
def jsonQuote (s : String) : String :=
  "\"" ++ String.join (s.data.map jsonEscapeChar) ++ "\""

mutual

/-- Model of `JSON.stringify` (compact form, fields in object order). -/
def jsonStringify : Json → String
  | .null => "null"
  | .bool b => if b then "true" else "false"
  | .num n => toString n
  | .str s => jsonQuote s
  | .arr xs => "[" ++ jsonStringifyList xs ++ "]"
  | .obj fields => "\x7b" ++ jsonStringifyFields fields ++ "\x7d"

/-- Comma-joined serialization of an array's elements. -/
def jsonStringifyList : List Json → String
  | [] => ""
  | [x] => jsonStringify x
  | x :: y :: t => jsonStringify x ++ "," ++ jsonStringifyList (y :: t)

/-- Comma-joined serialization of an object's fields. -/
def jsonStringifyFields : List (String × Json) → String
  | [] => ""
  | [(k, v)] => jsonQuote k ++ ":" ++ jsonStringify v
  | (k, v) :: y :: t =>
    jsonQuote k ++ ":" ++ jsonStringify v ++ "," ++ jsonStringifyFields (y :: t)

end

/-! ## `validateErrorOverrideResponse` (lib/error-override-validator) -/
/-- 10KB cap on the serialized override response. -/
def MAX_OVERRIDE_RESPONSE_BYTES : Nat := 10 * 1024

/-- JS `Math.round` (round half toward positive infinity). -/
def jsRoundQ (q : ℚ) : Int := ⌊q + 1/2⌋

/-- Size-limit check at the end of `validateErrorOverrideResponse`:
serializes the response and compares the UTF-8 byte length against 10KB.
(The `JSON.stringify` failure catch is unreachable for the inductive `Json`
model, which has no circular references.) -/
def overrideSizeCheck (response : Json) : Option String :=
  let byteLength := utf8Len (jsonStringify response)
  if byteLength > MAX_OVERRIDE_RESPONSE_BYTES then
    some ("覆写响应体大小 (" ++ toString ((jsRoundQ ((byteLength : ℚ) / 1024)).toNat) ++
      "KB) 超过限制 (10KB)")
  else
    none

/-- Translation of `validateErrorOverrideResponse(response)`: returns the
first failing check's message, or `none` when the override is accepted. -/
def validateErrorOverrideResponse (response : Json) : Option String :=
  match response with
  | .obj fields =>
    match jGet fields "type" with
    | some (.str t) =>
      if jsTrim t = "" then some "覆写响应缺少 type 字段"
      else if t ≠ "error" then some "覆写响应 type 字段必须为 \"error\""
      else
        match jGet fields "error" with
        | some (.obj efields) =>
          match jGet efields "type" with
          | some (.str et) =>
            if jsTrim et = "" then some "覆写响应 error.type 字段缺失或为空"
            else
              match jGet efields "message" with
              | some (.str _) =>
                match jGet fields "request_id" with
                | none => overrideSizeCheck response
                | some (.str _) => overrideSizeCheck response
                | some _ => some "覆写响应 request_id 字段必须是字符串"
              | _ => some "覆写响应 error.message 字段必须是字符串"
          | _ => some "覆写响应 error.type 字段缺失或为空"
        | _ => some "覆写响应缺少 error 对象"
    | _ => some "覆写响应缺少 type 字段"
  | _ => some "覆写响应必须是对象"

/-- Translation of `isValidErrorOverrideResponse(response)`:
`validateErrorOverrideResponse(response) === null`. -/
def isValidErrorOverrideResponse (response : Json) : Bool :=
  (validateErrorOverrideResponse response).isNone

/-! ## ErrorRuleDetector state and `detect` -/
/-- A rule row as delivered by `getActiveErrorRules()` (already filtered to
`isEnabled = true` and sorted by priority). `matchType` is kept as a string
because `reload` has a default branch for unknown values. -/
structure ErrorRule where
  id : Nat
  pattern : String
  matchType : String
  category : String
  description : Option String := none
  overrideResponse : Option Json := none
  overrideStatusCode : Option Int := none

/-- Cached regex rule: the compiled `RegExp`'s `.test` is carried as an
abstract Boolean predicate, `.source` as the original pattern string. -/
structure RegexPattern where
  test : String → Bool
  source : String
  category : String
  description : Option String := none
  overrideResponse : Option Json := none
  overrideStatusCode : Option Int := none

/-- Cached contains rule (`text` is already lower-cased). -/
structure ContainsPattern where
  text : String
  category : String
  description : Option String := none
  overrideResponse : Option Json := none
  overrideStatusCode : Option Int := none

/-- Cached exact rule. -/
structure ExactPattern where
  text : String
  category : String
  description : Option String := none
  overrideResponse : Option Json := none
  overrideStatusCode : Option Int := none

/-- JS `Map.set`: overwrite the value in place when the key exists, append
otherwise. -/
def mapSet : List (String × ExactPattern) → String → ExactPattern →
    List (String × ExactPattern)
  | [], k, v => [(k, v)]
  | (k', v') :: rest, k, v =>
    if k' = k then (k', v) :: rest else (k', v') :: mapSet rest k v

/-- JS `Map.get`. -/
def mapGet (m : List (String × ExactPattern)) (k : String) : Option ExactPattern :=
  (m.find? (fun e => e.1 = k)).map (·.2)

/-- The `ErrorRuleDetector`'s mutable fields (the `initializationPromise`
coalescing handle is a concurrency artefact with no effect on results and is
not modelled). -/
structure DetectorState where
  regexPatterns : List RegexPattern := []
  containsPatterns : List ContainsPattern := []
  exactPatterns : List (String × ExactPattern) := []
  lastReloadTime : Nat := 0
  isLoading : Bool := false
  isInitialized : Bool := false

/-- The `ErrorDetectionResult` record. -/
structure ErrorDetectionResult where
  matched : Bool
  category : Option String := none
  pattern : Option String := none
  matchType : Option String := none
  overrideResponse : Option Json := none
  overrideStatusCode : Option Int := none

/-- Translation of `ErrorRuleDetector.detect(errorMessage)`.  The
uninitialized-state branch only logs a warning and does not change the
result, so it is not represented. -/
def detect (st : DetectorState) (errorMessage : String) : ErrorDetectionResult :=
  if errorMessage = "" then { matched := false }
  else
    let lowerMessage := jsToLower errorMessage
    let trimmedMessage := jsTrim lowerMessage
    match st.containsPatterns.find? (fun p => jsIncludes lowerMessage p.text) with
    | some p =>
      { matched := true, category := some p.category, pattern := some p.text,
        matchType := some "contains", overrideResponse := p.overrideResponse,
        overrideStatusCode := p.overrideStatusCode }
    | none =>
      match mapGet st.exactPatterns trimmedMessage with
      | some e =>
        { matched := true, category := some e.category, pattern := some e.text,
          matchType := some "exact", overrideResponse := e.overrideResponse,
          overrideStatusCode := e.overrideStatusCode }
      | none =>
        match st.regexPatterns.find? (fun r => r.test errorMessage) with
        | some r =>
          { matched := true, category := some r.category, pattern := some r.source,
            matchType := some "regex", overrideResponse := r.overrideResponse,
            overrideStatusCode := r.overrideStatusCode }
        | none => { matched := false }

/-! ## `ErrorRuleDetector.reload` -/
/-- The three temporary collections built during `reload`. -/
structure RuleCollections where
  regexPatterns : List RegexPattern := []
  containsPatterns : List ContainsPattern := []
  exactPatterns : List (String × ExactPattern) := []

/-- Per-rule override validation inside `reload`: `undefined` unless the rule has
a truthy `overrideResponse` that passes `isValidErrorOverrideResponse`. -/
def validatedOverride : Option Json → Option Json
  | some o =>
    if jsTruthy o then
      if isValidErrorOverrideResponse o then some o else none
    else none
  | none => none

/-- One iteration of `reload`'s `for (const rule of rules)` loop.
`safe` stands for the external `safe-regex` screen, `compile` for
`new RegExp(rule.pattern, "i")` (`none` when the constructor throws). -/
def loadRule (safe : String → Bool) (compile : String → Option (String → Bool))
    (acc : RuleCollections) (rule : ErrorRule) : RuleCollections :=
  let validatedOverrideResponse : Option Json := validatedOverride rule.overrideResponse
  if rule.matchType = "contains" then
    let lowerText := jsToLower rule.pattern
    let p : ContainsPattern :=
      ⟨lowerText, rule.category, rule.description, validatedOverrideResponse,
       rule.overrideStatusCode⟩
    { acc with containsPatterns := acc.containsPatterns ++ [p] }
  else if rule.matchType = "exact" then
    let lowerText := jsToLower rule.pattern
    let p : ExactPattern :=
      ⟨lowerText, rule.category, rule.description, validatedOverrideResponse,
       rule.overrideStatusCode⟩
    { acc with exactPatterns := mapSet acc.exactPatterns lowerText p }
  else if rule.matchType = "regex" then
    if safe rule.pattern then
      match compile rule.pattern with
      | some t =>
        let p : RegexPattern :=
          ⟨t, rule.pattern, rule.category, rule.description,
           validatedOverrideResponse, rule.overrideStatusCode⟩
        { acc with regexPatterns := acc.regexPatterns ++ [p] }
      | none => acc
    else acc
  else acc

/-- Translation of `ErrorRuleDetector.reload()`.  `rulesResult` is the
outcome of `await getActiveErrorRules()` (`.error msg` when it throws with
message `msg`); `now` is `Date.now()`.  The new collections are built into
`RuleCollections` temporaries and installed only on the success path; both
throwing paths (the tolerated "relation does not exist" early return and the
generic catch) keep the previous collections. -/
def reload (safe : String → Bool) (compile : String → Option (String → Bool))
    (now : Nat) (st : DetectorState)
    (rulesResult : Except String (List ErrorRule)) : DetectorState :=
  if st.isLoading then st
  else
    match rulesResult with
    | .error msg =>
      if jsIncludes msg "relation" && jsIncludes msg "does not exist" then
        { st with lastReloadTime := now }
      else st
    | .ok rules =>
      let c := rules.foldl (loadRule safe compile) {}
      { st with
        regexPatterns := c.regexPatterns
        containsPatterns := c.containsPatterns
        exactPatterns := c.exactPatterns
        lastReloadTime := now
        isInitialized := true }

/-- The detection result produced by a matching contains rule. -/
def containsResult (p : ContainsPattern) : ErrorDetectionResult :=
  { matched := true, category := some p.category, pattern := some p.text,
    matchType := some "contains", overrideResponse := p.overrideResponse,
    overrideStatusCode := p.overrideStatusCode }

/-- The detection result produced by a matching exact rule. -/
def exactResult (e : ExactPattern) : ErrorDetectionResult :=
  { matched := true, category := some e.category, pattern := some e.text,
    matchType := some "exact", overrideResponse := e.overrideResponse,
    overrideStatusCode := e.overrideStatusCode }

/-- The detection result produced by a matching regex rule. -/
def regexResult (r : RegexPattern) : ErrorDetectionResult :=
  { matched := true, category := some r.category, pattern := some r.source,
    matchType := some "regex", overrideResponse := r.overrideResponse,
    overrideStatusCode := r.overrideStatusCode }

/-- Witness state for the detector theorems: one contains rule and one regex
rule that both match the message "boom error". -/
def wContains : ContainsPattern := ⟨"boom", "cat_contains", none, none, none⟩

/-- Witness regex rule whose `test` accepts everything. -/
def wRegex : RegexPattern := ⟨fun _ => true, "bo+m", "cat_regex", none, none, none⟩

/-- Witness detector state for C1. -/
def wState : DetectorState :=
  { regexPatterns := [wRegex], containsPatterns := [wContains], exactPatterns := [] }

/-- Every override an installed pattern can carry is a valid one. -/
def overrideOk (o? : Option Json) : Prop :=
  ∀ o, o? = some o → isValidErrorOverrideResponse o = true

/-- safe-regex stand-in for the C4 witness: rejects exactly the
catastrophic pattern from the spec's example. -/
def wSafe (p : String) : Bool := !(p == "(a+)+$")

/-- All overrides installed in a detector state are valid. -/
def overridesValid (st : DetectorState) : Prop :=
  (∀ p ∈ st.containsPatterns, overrideOk p.overrideResponse) ∧
  (∀ e ∈ st.exactPatterns, overrideOk e.2.overrideResponse) ∧
  (∀ rp ∈ st.regexPatterns, overrideOk rp.overrideResponse)

/-- Same invariant on the temporary collections built during reload. -/
def collectionsOverridesOk (c : RuleCollections) : Prop :=
  (∀ p ∈ c.containsPatterns, overrideOk p.overrideResponse) ∧
  (∀ e ∈ c.exactPatterns, overrideOk e.2.overrideResponse) ∧
  (∀ rp ∈ c.regexPatterns, overrideOk rp.overrideResponse)

/-- Acceptance condition exactly as the claim words it: non-array object,
top-level `type` equal to "error", `error.type` a non-empty string,
`error.message` a string, serialization at most 10KB. -/
def overrideAcceptedClaim (v : Json) : Bool :=
  match v with
  | .obj fields =>
    (match jGet fields "type" with
     | some (.str t) => t == "error"
     | _ => false) &&
    (match jGet fields "error" with
     | some (.obj ef) =>
       (match jGet ef "type" with
        | some (.str t) => !(t == "")
        | _ => false) &&
       (match jGet ef "message" with
        | some (.str _) => true
        | _ => false)
     | _ => false) &&
    decide (utf8Len (jsonStringify v) ≤ MAX_OVERRIDE_RESPONSE_BYTES)
  | _ => false

/-- Amended acceptance condition: additionally `error.type` must be
non-blank after trimming (not merely non-empty) and a present `request_id`
must be a string. -/
def overrideAcceptedAmended (v : Json) : Bool :=
  match v with
  | .obj fields =>
    (match jGet fields "type" with
     | some (.str t) => t == "error"
     | _ => false) &&
    (match jGet fields "error" with
     | some (.obj ef) =>
       (match jGet ef "type" with
        | some (.str t) => !(jsTrim t == "")
        | _ => false) &&
       (match jGet ef "message" with
        | some (.str _) => true
        | _ => false)
     | _ => false) &&
    (match jGet fields "request_id" with
     | none => true
     | some (.str _) => true
     | some _ => false) &&
    decide (utf8Len (jsonStringify v) ≤ MAX_OVERRIDE_RESPONSE_BYTES)
  | _ => false

/-- An override meeting every condition the claim lists, but carrying a
numeric `request_id`: the validator rejects it. -/
def badOverride : Json :=
  .obj [("type", .str "error"),
        ("error", .obj [("type", .str "x"), ("message", .str "m")]),
        ("request_id", .num 5)]

/-- Valid override used in the C5 witness state. -/
def wOverride : Json :=
  .obj [("type", .str "error"),
        ("error", .obj [("type", .str "overloaded_error"), ("message", .str "ok")])]

/-- Witness contains rule carrying a valid override. -/
def wContains5 : ContainsPattern := ⟨"boom", "cat5", none, some wOverride, none⟩

/-- Witness detector state for C5. -/
def wState5 : DetectorState := { containsPatterns := [wContains5] }

/-- Some rule in `rules` is an exact rule whose lower-cased pattern is `k`
(the key the loaded exact map would hold for it). -/
def hasExactRuleKey (rules : List ErrorRule) (k : String) : Bool :=
  rules.any (fun r => r.matchType == "exact" && jsToLower r.pattern == k)

/-- The exact rule of the C6 counterexample: pattern with surrounding
whitespace. -/
def cexExactRule : ErrorRule := ⟨1, " foo ", "exact", "cat6", none, none, none⟩

/-- Detector state loaded with only that rule. -/
def cexState : DetectorState :=
  reload wSafe (fun _ => none) 0 {} (.ok [cexExactRule])

/-- Exact rule for the C6 witness (no surrounding whitespace). -/
def wExactRule : ErrorRule := ⟨2, "BAR", "exact", "cat6w", none, none, none⟩

/-! ## `adjustTSeriesUsage` (app/v1/_lib/proxy/others.ts) -/
/-- The provider fields read by `isTSeriesProvider`. -/
structure Provider where
  providerType : String
  name : String

/-- JS regex word character (`\\w` = `[A-Za-z0-9_]`). -/
def isWordChar (c : Char) : Bool :=
  c.isAlphanum || c = '_'

def isDigit19 (c : Char) : Bool :=
  '1' ≤ c ∧ c ≤ '9'

/-- Does `/\\bT([1-9]|[1-9]\\d)\\b/` match at the head of this suffix
(the boundary before the head is checked by the caller)?  The alternation
first tries a single digit, then — when the following character is a word
character — two digits, each followed by a word boundary. -/
def tSeriesHere : List Char → Bool
  | 'T' :: d1 :: rest =>
    if isDigit19 d1 then
      match rest with
      | [] => true
      | d2 :: rest2 =>
        if ¬ isWordChar d2 then true
        else if d2.isDigit then
          match rest2 with
          | [] => true
          | c3 :: _ => ¬ isWordChar c3
        else false
    else false
  | _ => false

/-- Scan all positions of the name, tracking whether the previous character
was a word character (for the leading `\\b`). -/
def tSeriesScan : List Char → Bool → Bool
  | [], _ => false
  | c :: rest, prevWord =>
    (!prevWord && tSeriesHere (c :: rest)) || tSeriesScan rest (isWordChar c)

/-- Translation of `isTSeriesProvider(provider)`: Claude provider whose name contains a
standalone T1–T99 token. -/
def isTSeriesProvider (provider : Provider) : Bool :=
  if provider.providerType ≠ "claude" then false
  else tSeriesScan provider.name.data false

/-- Translation of `isHaikuModel(model)`. -/
def isHaikuModel : Option String → Bool
  | none => false
  | some m => jsIncludes (jsToLower m) "haiku"

/-- Translation of `isSonnetOrOpusModel(model)`. -/
def isSonnetOrOpusModel : Option String → Bool
  | none => false
  | some m => jsIncludes (jsToLower m) "sonnet" || jsIncludes (jsToLower m) "opus"

/-- The `UsageMetrics` fields touched by `adjustTSeriesUsage`; `none` models
an absent/null field. -/
structure UsageMetrics where
  input_tokens : Option Nat := none
  output_tokens : Option Nat := none
  cache_creation_input_tokens : Option Nat := none
  cache_read_input_tokens : Option Nat := none
  cache_creation_5m_input_tokens : Option Nat := none
  cache_ttl : Option String := none
deriving DecidableEq

def CACHE_NEW_INPUT_MIN : Nat := 3

def CACHE_NEW_INPUT_MAX : Nat := 15

/-- The three `Math.random()` draws the heuristic can make, each in
`[0, 1)`. -/
structure HeuristicRand where
  u1 : ℚ
  roll : ℚ
  u2 : ℚ

/-- Translation of `randomInt(min, max)` = `Math.floor(Math.random() * (max - min + 1)) + min`. -/
def randomInt (lo hi : Nat) (u : ℚ) : Nat :=
  (⌊u * ((hi : ℚ) - (lo : ℚ) + 1)⌋).toNat + lo

/-- Translation of `randomRatio(base, variance)`: a draw in
`[max(0, base - variance), min(1, base + variance))`. -/
def randomRatio (base variance u : ℚ) : ℚ :=
  let mn := max 0 (base - variance)
  let mx := min 1 (base + variance)
  mn + u * (mx - mn)

/-- The `REUSE_SCENARIOS` table lookup: first scenario whose threshold
exceeds the roll wins; the loop default is scenario 2's write ratio 0.1. -/
def pickWriteShare (roll u : ℚ) : ℚ :=
  if roll < 5/100 then randomRatio (7/10) (1/10) u
  else if roll < 1/10 then randomRatio (9/10) (5/100) u
  else if roll < 3/10 then randomRatio (1/10) (5/100) u
  else if roll < 1 then randomRatio (3/10) (1/10) u
  else 1/10

/-- JS `Math.round` on a nonnegative rational. -/
def jsRoundNat (q : ℚ) : Nat := (⌊q + 1/2⌋).toNat

/-- Translation of `adjustTSeriesUsage(usage, provider, session)`.  `model`
is `session.getCurrentModel() ?? null`, `isSessionReuse` is
`session.shouldReuseProvider()`, and `rand` carries the random draws.
`Math.max(0, originalInput - newInput)` is the truncated `Nat` subtraction. -/
def adjustTSeriesUsage (usage : Option UsageMetrics) (provider : Provider)
    (model : Option String) (isSessionReuse : Bool) (rand : HeuristicRand) :
    Option UsageMetrics :=
  match usage with
  | none => none
  | some u =>
    if !(isTSeriesProvider provider) then some u
    else if isHaikuModel model then
      if u.cache_creation_input_tokens.isSome then some u
      else
        some { u with
               cache_creation_input_tokens := some (u.cache_creation_input_tokens.getD 0)
               cache_read_input_tokens := some (u.cache_read_input_tokens.getD 0) }
    else if isSonnetOrOpusModel model then
      let hasCacheField := u.cache_creation_input_tokens.isSome
      let allCacheZero : Bool :=
        (u.cache_creation_input_tokens.getD 0 == 0) &&
          (u.cache_read_input_tokens.getD 0 == 0)
      if hasCacheField && !allCacheZero then some u
      else
        let originalInput := u.input_tokens.getD 0
        if originalInput < CACHE_NEW_INPUT_MIN then some u
        else
          let newInput := randomInt CACHE_NEW_INPUT_MIN CACHE_NEW_INPUT_MAX rand.u1
          let remaining := originalInput - newInput
          if !isSessionReuse then
            some { u with
                   input_tokens := some newInput
                   cache_creation_input_tokens := some remaining
                   cache_creation_5m_input_tokens := some remaining
                   cache_read_input_tokens := some 0
                   cache_ttl := some "5m" }
          else
            let writeShare := pickWriteShare rand.roll rand.u2
            let cacheWrite := jsRoundNat ((remaining : ℚ) * writeShare)
            let cacheRead := remaining - cacheWrite
            some { u with
                   input_tokens := some newInput
                   cache_creation_input_tokens := some cacheWrite
                   cache_creation_5m_input_tokens := some cacheWrite
                   cache_read_input_tokens := some cacheRead
                   cache_ttl := some "5m" }
    else some u

/-- Total of the three input-side token fields of a normalized record. -/
def usageInputSum (u : UsageMetrics) : Nat :=
  u.input_tokens.getD 0 + u.cache_creation_input_tokens.getD 0 +
    u.cache_read_input_tokens.getD 0

/-- Usage record of the C2 counterexample / witness: `input_tokens = 10`,
no cache fields. -/
def cexUsage2 : UsageMetrics := { input_tokens := some 10 }

/-- Claude provider whose name carries a standalone "T1" token. -/
def cexProvider : Provider := ⟨"claude", "Nice T1 Provider"⟩

/-- Usage record with a non-zero cache-read field but an absent
cache-creation field. -/
def cexUsage7 : UsageMetrics :=
  { input_tokens := some 10, cache_read_input_tokens := some 50 }

/-! ## User-id pool (`simpleHash` / `getUserIdFromPool`) -/
/-- UTF-16 code units of a string (`charCodeAt` walks these; code points
above the BMP split into a surrogate pair). -/
def utf16Units (s : String) : List Nat :=
  s.data.foldr (fun c acc =>
    (if c.toNat < 0x10000 then [c.toNat]
     else
       let v := c.toNat - 0x10000
       [0xD800 + v / 0x400, 0xDC00 + v % 0x400]) ++ acc) []

/-- JS `ToInt32` (the effect of `x & x` and of `<<` on the running hash). -/
def toInt32 (n : Int) : Int := (n + 2 ^ 31) % 2 ^ 32 - 2 ^ 31

/-- Translation of `simpleHash(str)`: `hash = (hash << 5) - hash + charCode; hash &= hash`
per code unit, then `Math.abs`. -/
def simpleHash (s : String) : Nat :=
  (((utf16Units s).map Int.ofNat).foldl
    (fun hash c => toInt32 (toInt32 (hash * 32) - hash + c)) 0).natAbs

def USER_POOL_MAX_SIZE : Nat := 3

/-- Step 5 of `getUserIdFromPool`: the deterministic hash fallback
`members[simpleHash(sessionId) % members.length]` (null on an empty pool). -/
def poolFallback (members : List String) (sessionId : String) : Option String :=
  if members.length = 0 then none
  else members.get? (simpleHash sessionId % members.length)

/-- The decision core of `getUserIdFromPool(providerId, sessionId,
currentUserId)` over a pool snapshot `members` (the sorted-set members after
expiry cleanup).  Redis bookkeeping (TTL refresh, binding writes) has no
effect on the returned id and is not modelled; the not-ready and error paths
return null before/instead of this logic. -/
def getUserIdFromPool (members : List String) (sessionId : String)
    (currentUserId : Option String) : Option String :=
  match currentUserId with
  | some uid =>
    if members.contains uid then some uid
    else if members.length < USER_POOL_MAX_SIZE then some uid
    else poolFallback members sessionId
  | none => poolFallback members sessionId

/-! ## `createProxyAgentForProvider` (lib/proxy-agent) -/
/-- Which agent class the function constructs. -/
inductive ProxyAgentKind where
  | socks
  | httpProxy
deriving DecidableEq

/-- The `ProxyConfig` result (agent, fallback flag, masked proxy URL). -/
structure ProxyAgentConfig where
  agent : ProxyAgentKind
  fallbackToDirect : Bool
  proxyUrl : String
deriving DecidableEq

/-- The provider fields `createProxyAgentForProvider` reads
(`ProviderProxyConfig`). -/
structure ProviderProxyConfig where
  id : Nat
  name : Option String := none
  proxyUrl : Option String := none
  proxyFallbackToDirect : Bool := false

/-- Translation of `createProxyAgentForProvider(provider, targetUrl)`.
`parseProtocol` stands for WHATWG `new URL(·).protocol` (`none` when the
constructor throws) and `mask` for `maskProxyUrl`; both are external
platform functions passed in as parameters.  `.error` models the thrown
`Invalid proxy configuration` error; `.ok none` is the no-proxy result.
The success branches also evaluate `new URL(targetUrl).origin` for the
debug log, so an unparsable target URL is likewise caught and rethrown as a
configuration error. -/
def createProxyAgentForProvider (parseProtocol : String → Option String)
    (mask : String → String) (provider : ProviderProxyConfig)
    (targetUrl : String) : Except String (Option ProxyAgentConfig) :=
  match provider.proxyUrl with
  | none => .ok none
  | some raw =>
    if raw = "" then .ok none
    else
      let proxyUrl := jsTrim raw
      if proxyUrl = "" then .ok none
      else
        match parseProtocol proxyUrl with
        | none => .error "Invalid proxy configuration: invalid URL"
        | some protocol =>
          if protocol = "socks5:" ∨ protocol = "socks4:" then
            match parseProtocol targetUrl with
            | none => .error "Invalid proxy configuration: invalid target URL"
            | some _ =>
              .ok (some ⟨.socks, provider.proxyFallbackToDirect, mask proxyUrl⟩)
          else if protocol = "http:" ∨ protocol = "https:" then
            match parseProtocol targetUrl with
            | none => .error "Invalid proxy configuration: invalid target URL"
            | some _ =>
              .ok (some ⟨.httpProxy, provider.proxyFallbackToDirect, mask proxyUrl⟩)
          else
            .error ("Invalid proxy configuration: Unsupported proxy protocol: " ++
              protocol)

/-- URL-scheme extraction used to instantiate the C8 witness. -/
def wParse (u : String) : Option String :=
  if jsIncludes u "socks5://" then some "socks5:"
  else if jsIncludes u "https://" then some "https:"
  else if jsIncludes u "http://" then some "http:"
  else none

theorem detect_eq_of_contains_find (st : DetectorState) (msg : String)
    (hne : msg ≠ "") (p : ContainsPattern)
    (hc : st.containsPatterns.find? (fun q => jsIncludes (jsToLower msg) q.text) =
      some p) :
    detect st msg = containsResult p := by
  unfold detect
  rw [if_neg hne]
  simp only [hc, containsResult]

theorem detect_eq_of_exact (st : DetectorState) (msg : String)
    (hne : msg ≠ "")
    (hc : st.containsPatterns.find? (fun q => jsIncludes (jsToLower msg) q.text) =
      none)
    (e : ExactPattern)
    (he : mapGet st.exactPatterns (jsTrim (jsToLower msg)) = some e) :
    detect st msg = exactResult e := by
  unfold detect
  rw [if_neg hne]
  simp only [hc, he, exactResult]

theorem detect_eq_of_regex (st : DetectorState) (msg : String)
    (hne : msg ≠ "")
    (hc : st.containsPatterns.find? (fun q => jsIncludes (jsToLower msg) q.text) =
      none)
    (he : mapGet st.exactPatterns (jsTrim (jsToLower msg)) = none) :
    detect st msg =
      match st.regexPatterns.find? (fun r => r.test msg) with
      | some r => regexResult r
      | none => { matched := false } := by
  unfold detect
  rw [if_neg hne]
  simp only [hc, he]
  rcases hr : st.regexPatterns.find? (fun r => r.test msg) with _ | r <;>
    simp [hr, regexResult]

/-- Case analysis on `detect`: any result is either "no match" or comes from
one member of one of the three collections, in tier order. -/
theorem detect_cases (st : DetectorState) (msg : String) :
    detect st msg = { matched := false } ∨
    (∃ p ∈ st.containsPatterns, detect st msg = containsResult p) ∨
    (∃ e, mapGet st.exactPatterns (jsTrim (jsToLower msg)) = some e ∧
      detect st msg = exactResult e) ∨
    (∃ r ∈ st.regexPatterns, detect st msg = regexResult r) := by
  by_cases hne : msg = ""
  · left; unfold detect; rw [if_pos hne]
  · rcases hc : st.containsPatterns.find? (fun q => jsIncludes (jsToLower msg) q.text)
      with _ | p
    · rcases he : mapGet st.exactPatterns (jsTrim (jsToLower msg)) with _ | e
      · rcases hr : st.regexPatterns.find? (fun r => r.test msg) with _ | r
        · left
          rw [detect_eq_of_regex st msg hne hc he, hr]
        · right; right; right
          refine ⟨r, List.mem_of_find?_eq_some hr, ?_⟩
          rw [detect_eq_of_regex st msg hne hc he, hr]
      · right; right; left
        exact ⟨e, rfl, detect_eq_of_exact st msg hne hc e he⟩
    · right; left
      exact ⟨p, List.mem_of_find?_eq_some hc, detect_eq_of_contains_find st msg hne p hc⟩

/-- C1: the tiers are tried contains → exact → regex and the first match
wins: the first matching contains rule fully determines the result; an
"exact" result implies no contains rule matched; a "regex" result implies
neither a contains rule nor the exact map matched.  In particular, when a
contains rule and a regex rule both match, the reported category is the
contains rule's, with matchType "contains". -/
theorem detect_tier_precedence (st : DetectorState) (msg : String)
    (hne : msg ≠ "") :
    (∀ q, st.containsPatterns.find? (fun p => jsIncludes (jsToLower msg) p.text) =
        some q →
      detect st msg = containsResult q) ∧
    ((detect st msg).matchType = some "exact" →
      st.containsPatterns.find? (fun p => jsIncludes (jsToLower msg) p.text) = none) ∧
    ((detect st msg).matchType = some "regex" →
      st.containsPatterns.find? (fun p => jsIncludes (jsToLower msg) p.text) = none ∧
      mapGet st.exactPatterns (jsTrim (jsToLower msg)) = none) := by
  refine ⟨fun q hq => detect_eq_of_contains_find st msg hne q hq, ?_, ?_⟩
  · intro hx
    rcases hc : st.containsPatterns.find? (fun p => jsIncludes (jsToLower msg) p.text)
      with _ | p
    · exact hc
    · rw [detect_eq_of_contains_find st msg hne p hc] at hx
      simp [containsResult] at hx
  · intro hx
    rcases hc : st.containsPatterns.find? (fun p => jsIncludes (jsToLower msg) p.text)
      with _ | p
    · rcases he : mapGet st.exactPatterns (jsTrim (jsToLower msg)) with _ | e
      · exact ⟨hc, rfl⟩
      · rw [detect_eq_of_exact st msg hne hc e he] at hx
        simp [exactResult] at hx
    · rw [detect_eq_of_contains_find st msg hne p hc] at hx
      simp [containsResult] at hx

theorem detect_tier_precedence_witness :
    ("boom error" ≠ "") ∧
    detect wState "boom error" = containsResult wContains := by
  have h := detect_tier_precedence wState "boom error" (by decide)
  exact ⟨by decide, h.1 wContains (by rfl)⟩

/-- C3: a throwing `getActiveErrorRules` leaves the three collections as
they were, hence identical `detect` results: the new collections are built
in temporaries and only installed on success. -/
theorem reload_failure_preserves_detect
    (safe : String → Bool) (compile : String → Option (String → Bool))
    (now : Nat) (st : DetectorState) (errMsg : String) (msg : String) :
    (reload safe compile now st (.error errMsg)).containsPatterns =
        st.containsPatterns ∧
    (reload safe compile now st (.error errMsg)).exactPatterns =
        st.exactPatterns ∧
    (reload safe compile now st (.error errMsg)).regexPatterns =
        st.regexPatterns ∧
    detect (reload safe compile now st (.error errMsg)) msg = detect st msg := by
  have hfields : (reload safe compile now st (.error errMsg)).containsPatterns =
        st.containsPatterns ∧
      (reload safe compile now st (.error errMsg)).exactPatterns =
        st.exactPatterns ∧
      (reload safe compile now st (.error errMsg)).regexPatterns =
        st.regexPatterns := by
    by_cases hl : st.isLoading = true
    · simp [reload, hl]
    · by_cases hrel : (jsIncludes errMsg "relation" &&
          jsIncludes errMsg "does not exist") = true
      · simp [reload, hl, hrel]
      · simp [reload, hl, hrel]
  refine ⟨hfields.1, hfields.2.1, hfields.2.2, ?_⟩
  unfold detect
  rw [hfields.1, hfields.2.1, hfields.2.2]

theorem validatedOverride_ok (o? : Option Json) : overrideOk (validatedOverride o?) := by
  intro o ho
  cases o? with
  | none => simp [validatedOverride] at ho
  | some v =>
    simp only [validatedOverride] at ho
    split_ifs at ho with h1 h2
    cases ho
    exact h2

theorem mem_mapSet (m : List (String × ExactPattern)) (k : String)
    (v : ExactPattern) : ∀ e ∈ mapSet m k v, e ∈ m ∨ e = (k, v) := by
  induction m with
  | nil => simp [mapSet]
  | cons hd t ih =>
    obtain ⟨k', v'⟩ := hd
    intro e he
    by_cases hk : k' = k
    · simp only [mapSet, if_pos hk] at he
      rcases List.mem_cons.mp he with h | h
      · right
        rw [h, hk]
      · left
        exact List.mem_cons_of_mem _ h
    · simp only [mapSet, if_neg hk] at he
      rcases List.mem_cons.mp he with h | h
      · left
        rw [h]
        exact List.mem_cons_self _ _
      · rcases ih e h with h' | h'
        · exact Or.inl (List.mem_cons_of_mem _ h')
        · exact Or.inr h'

/-- Decomposition of one `loadRule` step: every member of the produced
collections is either carried over from the accumulator or is the entry
built from this rule — whose override went through `validatedOverride`, and
(for regex rules) whose pattern passed the `safe-regex` screen. -/
theorem loadRule_mem (safe : String → Bool)
    (compile : String → Option (String → Bool))
    (acc : RuleCollections) (rule : ErrorRule) :
    (∀ p ∈ (loadRule safe compile acc rule).containsPatterns,
       p ∈ acc.containsPatterns ∨
         p.overrideResponse = validatedOverride rule.overrideResponse) ∧
    (∀ e ∈ (loadRule safe compile acc rule).exactPatterns,
       e ∈ acc.exactPatterns ∨
         e.2.overrideResponse = validatedOverride rule.overrideResponse) ∧
    (∀ rp ∈ (loadRule safe compile acc rule).regexPatterns,
       rp ∈ acc.regexPatterns ∨
         (safe rp.source = true ∧
          rp.overrideResponse = validatedOverride rule.overrideResponse)) := by
  by_cases h1 : rule.matchType = "contains"
  · refine ⟨?_, ?_, ?_⟩ <;> simp only [loadRule, if_pos h1] <;> intro x hx
    · rcases List.mem_append.mp hx with h | h
      · exact Or.inl h
      · right
        rw [List.mem_singleton.mp h]
    · exact Or.inl hx
    · exact Or.inl hx
  · by_cases h2 : rule.matchType = "exact"
    · refine ⟨?_, ?_, ?_⟩ <;>
        simp only [loadRule, if_neg h1, if_pos h2] <;> intro x hx
      · exact Or.inl hx
      · rcases mem_mapSet _ _ _ x hx with h | h
        · exact Or.inl h
        · right
          rw [h]
      · exact Or.inl hx
    · by_cases h3 : rule.matchType = "regex"
      · rcases hcomp : compile rule.pattern with _ | t
        · by_cases hsafe : safe rule.pattern = true
          · refine ⟨?_, ?_, ?_⟩ <;>
              simp only [loadRule, if_neg h1, if_neg h2, if_pos h3, if_pos hsafe,
                hcomp] <;> intro x hx <;> exact Or.inl hx
          · refine ⟨?_, ?_, ?_⟩ <;>
              simp only [loadRule, if_neg h1, if_neg h2, if_pos h3,
                if_neg hsafe] <;> intro x hx <;> exact Or.inl hx
        · by_cases hsafe : safe rule.pattern = true
          · refine ⟨?_, ?_, ?_⟩ <;>
              simp only [loadRule, if_neg h1, if_neg h2, if_pos h3, if_pos hsafe,
                hcomp] <;> intro x hx
            · exact Or.inl hx
            · exact Or.inl hx
            · rcases List.mem_append.mp hx with h | h
              · exact Or.inl h
              · right
                rw [List.mem_singleton.mp h]
                exact ⟨hsafe, rfl⟩
          · refine ⟨?_, ?_, ?_⟩ <;>
              simp only [loadRule, if_neg h1, if_neg h2, if_pos h3,
                if_neg hsafe] <;> intro x hx <;> exact Or.inl hx
      · refine ⟨?_, ?_, ?_⟩ <;>
          simp only [loadRule, if_neg h1, if_neg h2, if_neg h3] <;>
          intro x hx <;> exact Or.inl hx

theorem foldl_loadRule_regex_safe (safe : String → Bool)
    (compile : String → Option (String → Bool)) (rules : List ErrorRule)
    (acc : RuleCollections)
    (hacc : ∀ rp ∈ acc.regexPatterns, safe rp.source = true) :
    ∀ rp ∈ (rules.foldl (loadRule safe compile) acc).regexPatterns,
      safe rp.source = true := by
  induction rules generalizing acc with
  | nil => exact hacc
  | cons r rs ih =>
    refine ih _ ?_
    intro rp hrp
    rcases (loadRule_mem safe compile acc r).2.2 rp hrp with h | ⟨hs, _⟩
    · exact hacc rp h
    · exact hs

/-- C4: reload never installs a regex rule whose pattern fails the
`safe-regex` screen: if the pre-reload regex collection is fully screened,
so is the post-reload one (reload rebuilds it from scratch on success, and
keeps the screened previous one on failure or while a reload is in flight);
consequently a screened-out pattern can never be the pattern reported by a
"regex" detection. -/
theorem reload_screens_unsafe_regex (safe : String → Bool)
    (compile : String → Option (String → Bool)) (now : Nat)
    (st : DetectorState) (res : Except String (List ErrorRule))
    (hst : ∀ rp ∈ st.regexPatterns, safe rp.source = true) :
    (∀ rp ∈ (reload safe compile now st res).regexPatterns,
      safe rp.source = true) ∧
    (∀ msg, (detect (reload safe compile now st res) msg).matchType =
        some "regex" →
      ∃ src, (detect (reload safe compile now st res) msg).pattern = some src ∧
        safe src = true) := by
  have hscr : ∀ rp ∈ (reload safe compile now st res).regexPatterns,
      safe rp.source = true := by
    by_cases hl : st.isLoading = true
    · simpa [reload, hl] using hst
    · cases res with
      | error m =>
        by_cases hrel : (jsIncludes m "relation" && jsIncludes m "does not exist") = true
        · simpa [reload, hl, hrel] using hst
        · simpa [reload, hl, hrel] using hst
      | ok rules =>
        simp only [reload, hl, Bool.false_eq_true, if_false]
        exact foldl_loadRule_regex_safe safe compile rules {} (by simp [RuleCollections])
  refine ⟨hscr, ?_⟩
  intro msg hx
  rcases detect_cases (reload safe compile now st res) msg with h | ⟨p, _, h⟩ |
    ⟨e, _, h⟩ | ⟨r, hr, h⟩
  · rw [h] at hx
    simp at hx
  · rw [h] at hx
    simp [containsResult] at hx
  · rw [h] at hx
    simp [exactResult] at hx
  · rw [h]
    exact ⟨r.source, rfl, hscr r hr⟩

theorem reload_screens_unsafe_regex_witness :
    wSafe "(a+)+$" = false ∧
    (∀ rp ∈ (reload wSafe (fun _ => some (fun _ => true)) 0 wState
        (.ok [⟨1, "(a+)+$", "regex", "redos", none, none, none⟩])).regexPatterns,
      wSafe rp.source = true) := by
  refine ⟨by decide, ?_⟩
  have h := reload_screens_unsafe_regex wSafe (fun _ => some (fun _ => true)) 0 wState
    (.ok [⟨1, "(a+)+$", "regex", "redos", none, none, none⟩]) ?_
  · exact h.1
  · intro rp hrp
    rw [show wState.regexPatterns = [wRegex] from rfl, List.mem_singleton] at hrp
    rw [hrp]
    decide

theorem override_validation_claim_counterexample :
    overrideAcceptedClaim badOverride = true ∧
    isValidErrorOverrideResponse badOverride = false := by
  constructor
  · decide
  · decide

theorem overrideSizeCheck_isNone (v : Json) :
    (overrideSizeCheck v).isNone =
      decide (utf8Len (jsonStringify v) ≤ MAX_OVERRIDE_RESPONSE_BYTES) := by
  unfold overrideSizeCheck
  by_cases h : utf8Len (jsonStringify v) > MAX_OVERRIDE_RESPONSE_BYTES
  · have h' : ¬ utf8Len (jsonStringify v) ≤ MAX_OVERRIDE_RESPONSE_BYTES :=
      Nat.not_le.mpr h
    simp [h, h']
  · have h' : utf8Len (jsonStringify v) ≤ MAX_OVERRIDE_RESPONSE_BYTES :=
      Nat.le_of_not_lt h
    simp [h, h']

theorem isValid_eq_amended (v : Json) :
    isValidErrorOverrideResponse v = overrideAcceptedAmended v := by
  cases v with
  | null => rfl
  | bool b => rfl
  | num n => rfl
  | str s => rfl
  | arr xs => rfl
  | obj fields =>
    simp only [isValidErrorOverrideResponse, validateErrorOverrideResponse,
      overrideAcceptedAmended]
    rcases hty : jGet fields "type" with _ | jt
    · rfl
    · cases jt with
      | null => rfl
      | bool b => rfl
      | num n => rfl
      | arr xs => rfl
      | obj fs => rfl
      | str t =>
        dsimp only
        by_cases ht : t = "error"
        · subst ht
          rw [if_neg (by decide : ¬ jsTrim "error" = "")]
          rw [if_neg (by simp : ¬ ("error" ≠ "error"))]
          rw [show ("error" == "error") = true from by decide, Bool.true_and]
          rcases herr : jGet fields "error" with _ | je
          · rfl
          · cases je with
            | null => rfl
            | bool b => rfl
            | num n => rfl
            | str s => rfl
            | arr xs => rfl
            | obj ef =>
              dsimp only
              rcases het : jGet ef "type" with _ | jet
              · rfl
              · cases jet with
                | null => rfl
                | bool b => rfl
                | num n => rfl
                | arr xs => rfl
                | obj fs => rfl
                | str et =>
                  dsimp only
                  rcases hmsg : jGet ef "message" with _ | jm
                  · by_cases hets : jsTrim et = "" <;> simp [hets]
                  · cases jm with
                    | null => by_cases hets : jsTrim et = "" <;> simp [hets]
                    | bool b => by_cases hets : jsTrim et = "" <;> simp [hets]
                    | num n => by_cases hets : jsTrim et = "" <;> simp [hets]
                    | arr xs => by_cases hets : jsTrim et = "" <;> simp [hets]
                    | obj fs => by_cases hets : jsTrim et = "" <;> simp [hets]
                    | str m =>
                      dsimp only
                      rcases hrid : jGet fields "request_id" with _ | jr
                      · by_cases hets : jsTrim et = "" <;>
                          simp [hets, overrideSizeCheck_isNone]
                      · cases jr with
                        | null => by_cases hets : jsTrim et = "" <;> simp [hets]
                        | bool b => by_cases hets : jsTrim et = "" <;> simp [hets]
                        | num n => by_cases hets : jsTrim et = "" <;> simp [hets]
                        | arr xs => by_cases hets : jsTrim et = "" <;> simp [hets]
                        | obj fs => by_cases hets : jsTrim et = "" <;> simp [hets]
                        | str r =>
                          by_cases hets : jsTrim et = "" <;>
                            simp [hets, overrideSizeCheck_isNone]
        · rw [show (t == "error") = false from by simp [ht], Bool.false_and]
          by_cases hts : jsTrim t = ""
          · simp [hts]
          · simp [hts, ht]

theorem mapGet_mem (m : List (String × ExactPattern)) (k : String)
    (e : ExactPattern) (h : mapGet m k = some e) : ∃ kv ∈ m, kv.2 = e := by
  unfold mapGet at h
  rcases Option.map_eq_some'.mp h with ⟨kv, hfind, hkv⟩
  exact ⟨kv, List.mem_of_find?_eq_some hfind, hkv⟩

theorem loadRule_preserves_overridesOk (safe : String → Bool)
    (compile : String → Option (String → Bool)) (acc : RuleCollections)
    (rule : ErrorRule) (hacc : collectionsOverridesOk acc) :
    collectionsOverridesOk (loadRule safe compile acc rule) := by
  obtain ⟨hc, he, hr⟩ := hacc
  refine ⟨?_, ?_, ?_⟩
  · intro p hp
    rcases (loadRule_mem safe compile acc rule).1 p hp with h | h
    · exact hc p h
    · rw [h]
      exact validatedOverride_ok rule.overrideResponse
  · intro e hee
    rcases (loadRule_mem safe compile acc rule).2.1 e hee with h | h
    · exact he e h
    · rw [h]
      exact validatedOverride_ok rule.overrideResponse
  · intro rp hrp
    rcases (loadRule_mem safe compile acc rule).2.2 rp hrp with h | ⟨_, h⟩
    · exact hr rp h
    · rw [h]
      exact validatedOverride_ok rule.overrideResponse

theorem foldl_loadRule_overridesOk (safe : String → Bool)
    (compile : String → Option (String → Bool)) (rules : List ErrorRule)
    (acc : RuleCollections) (hacc : collectionsOverridesOk acc) :
    collectionsOverridesOk (rules.foldl (loadRule safe compile) acc) := by
  induction rules generalizing acc with
  | nil => exact hacc
  | cons r rs ih =>
    exact ih _ (loadRule_preserves_overridesOk safe compile acc r hacc)

/-- C5 (amended): an override is accepted exactly when it is a non-array
object with top-level `type` = "error", an `error` object whose `type` is a
string with non-blank trimmed content and whose `message` is a string, a
`request_id` that is absent or a string, and a serialization of at most
10KB; a (success) reload only ever installs validated overrides, and so a
detector whose installed overrides are valid can never hand a malformed
override to a caller. -/
theorem override_validation_amended (v : Json) (safe : String → Bool)
    (compile : String → Option (String → Bool)) (now : Nat)
    (st : DetectorState) (rules : List ErrorRule) (msg : String)
    (hload : st.isLoading = false) (hv : overridesValid st) :
    isValidErrorOverrideResponse v = overrideAcceptedAmended v ∧
    overridesValid (reload safe compile now st (.ok rules)) ∧
    (∀ o, (detect st msg).overrideResponse = some o →
      isValidErrorOverrideResponse o = true) := by
  refine ⟨isValid_eq_amended v, ?_, ?_⟩
  · have hfold := foldl_loadRule_overridesOk safe compile rules {}
      (⟨by simp, by simp, by simp⟩)
    simp only [reload, hload, Bool.false_eq_true, if_false]
    exact ⟨hfold.1, hfold.2.1, hfold.2.2⟩
  · intro o ho
    rcases detect_cases st msg with h | ⟨p, hp, h⟩ | ⟨e, hme, h⟩ | ⟨r, hr, h⟩
    · rw [h] at ho
      cases ho
    · rw [h] at ho
      exact hv.1 p hp o ho
    · rw [h] at ho
      obtain ⟨kv, hkv_mem, hkv⟩ := mapGet_mem _ _ _ hme
      refine hv.2.1 kv hkv_mem o ?_
      rw [hkv]
      exact ho
    · rw [h] at ho
      exact hv.2.2 r hr o ho

theorem override_validation_amended_witness :
    wState5.isLoading = false ∧ overridesValid wState5 ∧
    (isValidErrorOverrideResponse badOverride = overrideAcceptedAmended badOverride ∧
     overridesValid (reload wSafe (fun _ => none) 0 wState5 (.ok [])) ∧
     (∀ o, (detect wState5 "boom").overrideResponse = some o →
        isValidErrorOverrideResponse o = true)) := by
  have hov : overridesValid wState5 := by
    refine ⟨?_, ?_, ?_⟩
    · intro p hp o ho
      rw [show wState5.containsPatterns = [wContains5] from rfl,
        List.mem_singleton] at hp
      subst hp
      cases ho
      decide
    · intro e he
      simp [wState5] at he
    · intro rp hrp
      simp [wState5] at hrp
  exact ⟨rfl, hov,
    override_validation_amended badOverride wSafe (fun _ => none) 0 wState5 []
      "boom" rfl hov⟩

theorem mapGet_mapSet (m : List (String × ExactPattern)) (k : String)
    (v : ExactPattern) (k' : String) :
    mapGet (mapSet m k v) k' = if k' = k then some v else mapGet m k' := by
  induction m with
  | nil =>
    by_cases h : k' = k
    · simp [mapSet, mapGet, h]
    · have h' : ¬ k = k' := fun hh => h hh.symm
      simp [mapSet, mapGet, h, h']
  | cons hd t ih =>
    obtain ⟨k'', v''⟩ := hd
    by_cases h : k'' = k
    · subst h
      by_cases h' : k' = k''
      · simp [mapSet, mapGet, h', List.find?_cons]
      · have h'' : ¬ k'' = k' := fun hh => h' hh.symm
        simp [mapSet, mapGet, h', h'', List.find?_cons]
    · by_cases h' : k' = k''
      · have h'' : ¬ k' = k := by
          rw [h']
          exact h
        have hk2 : k'' = k' := h'.symm
        simp [mapSet, mapGet, h, h'', List.find?_cons, hk2]
      · have h'' : ¬ k'' = k' := fun hh => h' hh.symm
        simp only [mapSet, if_neg h]
        rw [show mapGet ((k'', v'') :: mapSet t k v) k' =
            mapGet (mapSet t k v) k' from by simp [mapGet, List.find?_cons, h'']]
        rw [show mapGet ((k'', v'') :: t) k' = mapGet t k' from by
          simp [mapGet, List.find?_cons, h'']]
        exact ih

theorem loadRule_exact_get (safe : String → Bool)
    (compile : String → Option (String → Bool)) (acc : RuleCollections)
    (rule : ErrorRule) (k : String) :
    (mapGet (loadRule safe compile acc rule).exactPatterns k).isSome =
      ((mapGet acc.exactPatterns k).isSome ||
        (rule.matchType == "exact" && jsToLower rule.pattern == k)) := by
  by_cases h1 : rule.matchType = "contains"
  · have hx : (rule.matchType == "exact") = false := by simp [h1]
    simp [loadRule, h1, hx]
  · by_cases h2 : rule.matchType = "exact"
    · have hx : (rule.matchType == "exact") = true := by simp [h2]
      simp only [loadRule, if_neg h1, if_pos h2]
      rw [mapGet_mapSet]
      by_cases hk : k = jsToLower rule.pattern
      · have : (jsToLower rule.pattern == k) = true := by simp [hk]
        simp [hk, hx, this]
      · have : (jsToLower rule.pattern == k) = false := by
          simp
          exact fun hh => hk hh.symm
        simp [hk, hx, this]
    · have hx : (rule.matchType == "exact") = false := by simp [h2]
      by_cases h3 : rule.matchType = "regex"
      · rcases hcomp : compile rule.pattern with _ | t <;>
          by_cases hsafe : safe rule.pattern = true <;>
            simp [loadRule, h1, h2, h3, hcomp, hsafe, hx]
      · simp [loadRule, h1, h2, h3, hx]

theorem foldl_exact_key (safe : String → Bool)
    (compile : String → Option (String → Bool)) (rules : List ErrorRule)
    (acc : RuleCollections) (k : String) :
    (mapGet (rules.foldl (loadRule safe compile) acc).exactPatterns k).isSome =
      ((mapGet acc.exactPatterns k).isSome || hasExactRuleKey rules k) := by
  induction rules generalizing acc with
  | nil => simp [hasExactRuleKey]
  | cons r rs ih =>
    rw [List.foldl_cons, ih, loadRule_exact_get]
    simp [hasExactRuleKey, Bool.or_assoc]

/-- C6 (amended): the exact map is keyed by the lower-cased — but not
trimmed — rule text, while the lookup key is the trimmed lower-cased
message; so when no contains rule matches, `detect` reports an exact match
iff some exact rule's lower-cased pattern equals the trimmed lower-cased
message verbatim.  Whitespace around the message is ignored, but whitespace
inside a rule pattern is preserved and prevents matching. -/
theorem exact_match_iff_amended (safe : String → Bool)
    (compile : String → Option (String → Bool)) (now : Nat)
    (st : DetectorState) (rules : List ErrorRule) (msg : String)
    (hne : msg ≠ "") (hload : st.isLoading = false)
    (hnc : (reload safe compile now st (.ok rules)).containsPatterns.find?
        (fun p => jsIncludes (jsToLower msg) p.text) = none) :
    ((detect (reload safe compile now st (.ok rules)) msg).matchType =
        some "exact" ↔
      ∃ r ∈ rules, r.matchType = "exact" ∧
        jsTrim (jsToLower msg) = jsToLower r.pattern) := by
  have hex : (reload safe compile now st (.ok rules)).exactPatterns =
      (rules.foldl (loadRule safe compile) {}).exactPatterns := by
    simp [reload, hload]
  have hiff : (mapGet (reload safe compile now st (.ok rules)).exactPatterns
      (jsTrim (jsToLower msg))).isSome =
      hasExactRuleKey rules (jsTrim (jsToLower msg)) := by
    rw [hex, foldl_exact_key]
    simp [mapGet, RuleCollections]
  constructor
  · intro hx
    rcases he : mapGet (reload safe compile now st (.ok rules)).exactPatterns
        (jsTrim (jsToLower msg)) with _ | e
    · have hd := detect_eq_of_regex _ msg hne hnc he
      rw [hd] at hx
      rcases hr : (reload safe compile now st (.ok rules)).regexPatterns.find?
          (fun r => r.test msg) with _ | r <;> rw [hr] at hx <;>
        simp [regexResult] at hx
    · have hkeyb : hasExactRuleKey rules (jsTrim (jsToLower msg)) = true := by
        rw [← hiff, he]
        rfl
      rcases List.any_eq_true.mp hkeyb with ⟨r, hr, hpred⟩
      rw [Bool.and_eq_true, beq_iff_eq, beq_iff_eq] at hpred
      exact ⟨r, hr, hpred.1, hpred.2.symm⟩
  · rintro ⟨r, hr, hmt, hkey⟩
    have hkeyb : hasExactRuleKey rules (jsTrim (jsToLower msg)) = true := by
      refine List.any_eq_true.mpr ⟨r, hr, ?_⟩
      rw [Bool.and_eq_true, beq_iff_eq, beq_iff_eq]
      exact ⟨hmt, hkey.symm⟩
    have hsome : (mapGet (reload safe compile now st (.ok rules)).exactPatterns
        (jsTrim (jsToLower msg))).isSome = true := by
      rw [hiff]
      exact hkeyb
    rcases Option.isSome_iff_exists.mp hsome with ⟨e, he⟩
    rw [detect_eq_of_exact _ msg hne hnc e he]
    rfl

/-- C6 counterexample: "foo" and " foo " agree after trim+lower — the claim
predicts an exact match — yet `detect` reports no match, because the stored
key " foo " was never trimmed. -/
theorem exact_trim_counterexample :
    jsTrim (jsToLower "foo") = jsTrim (jsToLower " foo ") ∧
    (detect cexState "foo").matched = false := by
  constructor
  · decide
  · decide

theorem exact_match_iff_amended_witness :
    ("  BAR " ≠ "") ∧
    (detect (reload wSafe (fun _ => none) 0 {} (.ok [wExactRule]))
      "  BAR ").matchType = some "exact" := by
  have hnc : (reload wSafe (fun _ => none) 0 {}
      (.ok [wExactRule])).containsPatterns.find?
      (fun p => jsIncludes (jsToLower "  BAR ") p.text) = none := rfl
  refine ⟨by decide, ?_⟩
  exact (exact_match_iff_amended wSafe (fun _ => none) 0 {} [wExactRule]
      "  BAR " (by decide) rfl hnc).mpr
    ⟨wExactRule, List.mem_singleton.mpr rfl, rfl, by decide⟩

theorem randomRatio_mem (base variance u : ℚ) (hu0 : 0 ≤ u) (hu1 : u < 1)
    (hv : 0 ≤ variance) (h0 : 0 ≤ base - variance) (h1 : base + variance ≤ 1) :
    0 ≤ randomRatio base variance u ∧ randomRatio base variance u ≤ 1 := by
  simp only [ randomRatio]
  rw [max_eq_right h0, min_eq_right h1]
  constructor
  · nlinarith
  · nlinarith

theorem pickWriteShare_mem (roll u : ℚ) (hu0 : 0 ≤ u) (hu1 : u < 1) :
    0 ≤ pickWriteShare roll u ∧ pickWriteShare roll u ≤ 1 := by
  unfold pickWriteShare
  split_ifs
  · exact randomRatio_mem _ _ _ hu0 hu1 (by norm_num) (by norm_num) (by norm_num)
  · exact randomRatio_mem _ _ _ hu0 hu1 (by norm_num) (by norm_num) (by norm_num)
  · exact randomRatio_mem _ _ _ hu0 hu1 (by norm_num) (by norm_num) (by norm_num)
  · exact randomRatio_mem _ _ _ hu0 hu1 (by norm_num) (by norm_num) (by norm_num)
  · constructor <;> norm_num

theorem jsRoundNat_le_of_le (n : Nat) (q : ℚ) (h1 : q ≤ (n : ℚ)) :
    jsRoundNat q ≤ n := by
  unfold jsRoundNat
  have h2 : ⌊q + 1/2⌋ < (n : ℤ) + 1 := by
    apply Int.floor_lt.mpr
    push_cast
    linarith
  exact Int.toNat_le.mpr (by omega)

/-- Closed form of the heuristic on the Sonnet/Opus path when the cache
fields are absent and the input is at least the minimum draw: the two
result records of `adjustTSeriesUsage`'s success branches. -/
theorem adjust_sonnet_nocache (u : UsageMetrics) (provider : Provider)
    (model : Option String) (reuse : Bool) (rand : HeuristicRand)
    (hT : isTSeriesProvider provider = true)
    (hH : isHaikuModel model = false)
    (hS : isSonnetOrOpusModel model = true)
    (hcc : u.cache_creation_input_tokens = none)
    (hbig : ¬ u.input_tokens.getD 0 < 3) :
    adjustTSeriesUsage (some u) provider model reuse rand =
      (if reuse then
        some { u with
               input_tokens := some (randomInt 3 15 rand.u1)
               cache_creation_input_tokens :=
                 some (jsRoundNat
                   (((u.input_tokens.getD 0 - randomInt 3 15 rand.u1 : Nat) : ℚ) *
                     pickWriteShare rand.roll rand.u2))
               cache_creation_5m_input_tokens :=
                 some (jsRoundNat
                   (((u.input_tokens.getD 0 - randomInt 3 15 rand.u1 : Nat) : ℚ) *
                     pickWriteShare rand.roll rand.u2))
               cache_read_input_tokens :=
                 some ((u.input_tokens.getD 0 - randomInt 3 15 rand.u1) -
                   jsRoundNat
                     (((u.input_tokens.getD 0 - randomInt 3 15 rand.u1 : Nat) : ℚ) *
                       pickWriteShare rand.roll rand.u2))
               cache_ttl := some "5m" }
      else
        some { u with
               input_tokens := some (randomInt 3 15 rand.u1)
               cache_creation_input_tokens :=
                 some (u.input_tokens.getD 0 - randomInt 3 15 rand.u1)
               cache_creation_5m_input_tokens :=
                 some (u.input_tokens.getD 0 - randomInt 3 15 rand.u1)
               cache_read_input_tokens := some 0
               cache_ttl := some "5m" }) := by
  unfold adjustTSeriesUsage
  dsimp only
  rw [hT, hH, hS, hcc]
  simp only [Bool.not_true, Bool.false_eq_true, if_false, if_true,
    Option.isSome_none, Bool.false_and]
  have hmm : CACHE_NEW_INPUT_MIN = 3 := rfl
  have hmx : CACHE_NEW_INPUT_MAX = 15 := rfl
  rw [hmm, hmx]
  rw [if_neg hbig]
  cases reuse <;> rfl

/-- C2 (amended): for a flagged Sonnet/Opus record with `input_tokens = 10`
and no cache fields, the adjusted record's input + cache-creation +
cache-read total equals `max 10 newInputDraw`: the decomposition conserves
the original 10 exactly when the random new-input draw is at most 10, and
totals the draw itself when the draw (range 3–15) exceeds the original
input, because the remainder is clamped at zero. -/
theorem tseries_sum_amended (u : UsageMetrics) (provider : Provider)
    (model : Option String) (reuse : Bool) (rand : HeuristicRand)
    (hT : isTSeriesProvider provider = true)
    (hH : isHaikuModel model = false)
    (hS : isSonnetOrOpusModel model = true)
    (hin : u.input_tokens = some 10)
    (hcc : u.cache_creation_input_tokens = none)
    (hcr : u.cache_read_input_tokens = none)
    (hu1 : 0 ≤ rand.u1 ∧ rand.u1 < 1)
    (hroll : 0 ≤ rand.roll ∧ rand.roll < 1)
    (hu2 : 0 ≤ rand.u2 ∧ rand.u2 < 1) :
    ∃ u', adjustTSeriesUsage (some u) provider model reuse rand = some u' ∧
      usageInputSum u' = max 10 (randomInt 3 15 rand.u1) ∧
      (randomInt 3 15 rand.u1 ≤ 10 → usageInputSum u' = 10) := by
  have hshare := pickWriteShare_mem rand.roll rand.u2 hu2.1 hu2.2
  have hbig : ¬ u.input_tokens.getD 0 < 3 := by
    rw [hin]
    norm_num
  rw [adjust_sonnet_nocache u provider model reuse rand hT hH hS hcc hbig]
  rw [hin]
  simp only [Option.getD_some]
  set d := randomInt 3 15 rand.u1 with hd
  cases reuse with
  | true =>
    rw [if_pos rfl]
    have hq0 : (0 : ℚ) ≤ ((10 - d : Nat) : ℚ) * pickWriteShare rand.roll rand.u2 :=
      mul_nonneg (by positivity) hshare.1
    have hqle : ((10 - d : Nat) : ℚ) * pickWriteShare rand.roll rand.u2 ≤
        ((10 - d : Nat) : ℚ) :=
      mul_le_of_le_one_right (by positivity) hshare.2
    have hcw : jsRoundNat (((10 - d : Nat) : ℚ) * pickWriteShare rand.roll rand.u2) ≤
        10 - d := jsRoundNat_le_of_le _ _ hqle
    refine ⟨_, rfl, ?_, ?_⟩
    · simp only [usageInputSum, Option.getD_some]
      rw [Nat.max_def]
      split_ifs <;> omega
    · intro hle
      simp only [usageInputSum, Option.getD_some]
      omega
  | false =>
    rw [if_neg (by simp)]
    refine ⟨_, rfl, ?_, ?_⟩
    · simp only [usageInputSum, Option.getD_some]
      rw [Nat.max_def]
      split_ifs <;> omega
    · intro hle
      simp only [usageInputSum, Option.getD_some]
      omega

/-- C2 counterexample: the draw `randomInt(3, 15)` can exceed the original
10 input tokens (here 11, from `Math.random() = 8/13`); the remainder is
clamped to zero and the adjusted fields total 11, not 10. -/
theorem tseries_sum_counterexample :
    isTSeriesProvider cexProvider = true ∧
    (0 : ℚ) ≤ 8/13 ∧ (8/13 : ℚ) < 1 ∧
    randomInt 3 15 (8/13) = 11 ∧
    (adjustTSeriesUsage (some cexUsage2) cexProvider (some "claude-sonnet-4-5")
        false ⟨8/13, 0, 0⟩).map usageInputSum = some 11 := by
  have hdraw : randomInt 3 15 (8/13) = 11 := by
    unfold randomInt
    norm_num
    rfl
  refine ⟨by decide, by norm_num, by norm_num, hdraw, ?_⟩
  rw [adjust_sonnet_nocache cexUsage2 cexProvider (some "claude-sonnet-4-5")
    false ⟨8/13, 0, 0⟩ (by decide) (by decide) (by decide) rfl (by decide)]
  rw [if_neg (by simp)]
  show some (usageInputSum _) = some 11
  simp only [usageInputSum, cexUsage2, Option.getD_some]
  rw [hdraw]

theorem tseries_sum_amended_witness :
    isTSeriesProvider cexProvider = true ∧
    isHaikuModel (some "claude-sonnet-4-5") = false ∧
    isSonnetOrOpusModel (some "claude-sonnet-4-5") = true ∧
    (∃ u', adjustTSeriesUsage (some cexUsage2) cexProvider
        (some "claude-sonnet-4-5") true ⟨1/2, 1/2, 1/2⟩ = some u' ∧
      usageInputSum u' = max 10 (randomInt 3 15 (1/2)) ∧
      (randomInt 3 15 (1/2) ≤ 10 → usageInputSum u' = 10)) := by
  refine ⟨by decide, by decide, by decide, ?_⟩
  exact tseries_sum_amended cexUsage2 cexProvider (some "claude-sonnet-4-5") true
    ⟨1/2, 1/2, 1/2⟩ (by decide) (by decide) (by decide) rfl rfl rfl
    ⟨by norm_num, by norm_num⟩ ⟨by norm_num, by norm_num⟩ ⟨by norm_num, by norm_num⟩

/-- C10: for a flagged Sonnet/Opus record with missing or all-zero cache
fields whose `input_tokens` is below the minimum new-input draw (3), the
record is returned completely unchanged. -/
theorem small_input_unchanged (u : UsageMetrics) (provider : Provider)
    (model : Option String) (reuse : Bool) (rand : HeuristicRand)
    (hT : isTSeriesProvider provider = true)
    (hH : isHaikuModel model = false)
    (hS : isSonnetOrOpusModel model = true)
    (hcc : u.cache_creation_input_tokens = none ∨
      (u.cache_creation_input_tokens.getD 0 = 0 ∧
       u.cache_read_input_tokens.getD 0 = 0))
    (hsmall : u.input_tokens.getD 0 < 3) :
    adjustTSeriesUsage (some u) provider model reuse rand = some u := by
  unfold adjustTSeriesUsage
  dsimp only
  rw [hT, hH, hS]
  simp only [Bool.not_true, Bool.false_eq_true, if_false, if_true]
  by_cases hg : (u.cache_creation_input_tokens.isSome &&
      !((u.cache_creation_input_tokens.getD 0 == 0) &&
        (u.cache_read_input_tokens.getD 0 == 0))) = true
  · rw [if_pos hg]
  · rw [if_neg hg]
    rw [if_pos (show u.input_tokens.getD 0 < CACHE_NEW_INPUT_MIN from hsmall)]

theorem small_input_unchanged_witness :
    isTSeriesProvider cexProvider = true ∧
    (({ input_tokens := some 2 } : UsageMetrics).input_tokens.getD 0 < 3) ∧
    adjustTSeriesUsage (some { input_tokens := some 2 }) cexProvider
      (some "claude-sonnet-4-5") false ⟨0, 0, 0⟩ =
      some { input_tokens := some 2 } := by
  refine ⟨by decide, by decide, ?_⟩
  exact small_input_unchanged { input_tokens := some 2 } cexProvider
    (some "claude-sonnet-4-5") false ⟨0, 0, 0⟩ (by decide) (by decide) (by decide)
    (Or.inl rfl) (by decide)

/-- C7 (amended): the heuristic never touches a record from a non-flagged
provider, and never touches a record whose `cache_creation_input_tokens` is
present (non-null) unless both cache fields are zero.  (A record with an
absent `cache_creation_input_tokens` but a non-zero `cache_read_input_tokens`
is still adjusted — see the counterexample.) -/
theorem heuristic_gate_amended (u : UsageMetrics) (provider : Provider)
    (model : Option String) (reuse : Bool) (rand : HeuristicRand) :
    (isTSeriesProvider provider = false →
      adjustTSeriesUsage (some u) provider model reuse rand = some u) ∧
    (u.cache_creation_input_tokens.isSome = true →
      ¬(u.cache_creation_input_tokens.getD 0 = 0 ∧
        u.cache_read_input_tokens.getD 0 = 0) →
      adjustTSeriesUsage (some u) provider model reuse rand = some u) := by
  constructor
  · intro hT
    unfold adjustTSeriesUsage
    dsimp only
    rw [hT]
    rfl
  · intro hcs hnz
    unfold adjustTSeriesUsage
    dsimp only
    by_cases hT : isTSeriesProvider provider = true
    · rw [hT]
      simp only [Bool.not_true, Bool.false_eq_true, if_false]
      by_cases hH : isHaikuModel model = true
      · rw [if_pos hH, if_pos (by rw [hcs])]
      · rw [if_neg hH]
        by_cases hS : isSonnetOrOpusModel model = true
        · rw [if_pos hS]
          have hguard : (u.cache_creation_input_tokens.isSome &&
              !((u.cache_creation_input_tokens.getD 0 == 0) &&
                (u.cache_read_input_tokens.getD 0 == 0))) = true := by
            rw [hcs, Bool.true_and, Bool.not_eq_true']
            simpa using hnz
          rw [if_pos hguard]
        · rw [if_neg hS]
    · rw [Bool.not_eq_true] at hT
      rw [hT]
      rfl

/-- C7 counterexample: a flagged Sonnet record carrying a non-zero cache
field (`cache_read_input_tokens = 50`) is nevertheless rewritten by the
heuristic, because the gate only checks `cache_creation_input_tokens !=
null`. -/
theorem heuristic_gate_counterexample :
    isTSeriesProvider cexProvider = true ∧
    cexUsage7.cache_read_input_tokens = some 50 ∧
    adjustTSeriesUsage (some cexUsage7) cexProvider (some "claude-sonnet-4-5")
      false ⟨0, 0, 0⟩ ≠ some cexUsage7 := by
  have hdraw : randomInt 3 15 0 = 3 := by
    unfold randomInt
    norm_num
  refine ⟨by decide, rfl, ?_⟩
  rw [adjust_sonnet_nocache cexUsage7 cexProvider (some "claude-sonnet-4-5")
    false ⟨0, 0, 0⟩ (by decide) (by decide) (by decide) rfl (by decide)]
  rw [if_neg (by simp)]
  rw [show HeuristicRand.u1 ⟨0, 0, 0⟩ = (0 : ℚ) from rfl, hdraw]
  simp [cexUsage7]

theorem heuristic_gate_amended_witness :
    isTSeriesProvider ⟨"openai", "Gemini Relay"⟩ = false ∧
    adjustTSeriesUsage (some cexUsage7) ⟨"openai", "Gemini Relay"⟩
      (some "claude-sonnet-4-5") false ⟨0, 0, 0⟩ = some cexUsage7 ∧
    (({ cache_creation_input_tokens := some 5 } :
        UsageMetrics).cache_creation_input_tokens.isSome = true) ∧
    adjustTSeriesUsage (some { cache_creation_input_tokens := some 5 })
      cexProvider (some "claude-sonnet-4-5") false ⟨0, 0, 0⟩ =
      some { cache_creation_input_tokens := some 5 } := by
  refine ⟨by decide, ?_, by decide, ?_⟩
  · exact (heuristic_gate_amended cexUsage7 ⟨"openai", "Gemini Relay"⟩
      (some "claude-sonnet-4-5") false ⟨0, 0, 0⟩).1 (by decide)
  · exact (heuristic_gate_amended { cache_creation_input_tokens := some 5 }
      cexProvider (some "claude-sonnet-4-5") false ⟨0, 0, 0⟩).2 (by decide)
      (by simp)

/-- C9: with a full pool (3 members) and no request-supplied user id, the
resolution is a pure function of the pool snapshot and the session id — two
calls against the same state return the same pooled id — and that id is the
member at index `simpleHash(sessionId) % poolSize`, which always exists. -/
theorem pool_fallback_deterministic (members : List String) (sessionId : String)
    (hfull : members.length = 3) :
    getUserIdFromPool members sessionId none =
      getUserIdFromPool members sessionId none ∧
    getUserIdFromPool members sessionId none =
      members.get? (simpleHash sessionId % members.length) ∧
    (getUserIdFromPool members sessionId none).isSome = true := by
  have hne : ¬ members.length = 0 := by omega
  refine ⟨rfl, ?_, ?_⟩
  · simp only [getUserIdFromPool, poolFallback, if_neg hne]
  · simp only [getUserIdFromPool, poolFallback, if_neg hne]
    have hlt : simpleHash sessionId % members.length < members.length := by
      refine Nat.mod_lt _ ?_
      omega
    rw [List.get?_eq_get hlt]
    rfl

set_option maxRecDepth 4000 in
theorem pool_fallback_deterministic_witness :
    (["alice", "bob", "carol"].length = 3) ∧
    getUserIdFromPool ["alice", "bob", "carol"] "sess-1" none =
      ["alice", "bob", "carol"].get? (simpleHash "sess-1" % 3) ∧
    getUserIdFromPool ["alice", "bob", "carol"] "sess-1" none = some "bob" := by
  have h := pool_fallback_deterministic ["alice", "bob", "carol"] "sess-1" rfl
  refine ⟨rfl, h.2.1, ?_⟩
  rw [h.2.1]
  decide

/-- C8: with a non-blank proxy URL, the agent kind is selected purely by the
parsed scheme — SOCKS agent for socks4/socks5, HTTP proxy agent for
http/https — every unparsable proxy URL or unsupported scheme throws a
configuration error, and the function never silently returns the no-proxy
result. -/
theorem proxy_agent_selection (parseProtocol : String → Option String)
    (mask : String → String) (provider : ProviderProxyConfig)
    (targetUrl : String) (raw : String)
    (hurl : provider.proxyUrl = some raw)
    (hblank : jsTrim raw ≠ "")
    (htarget : (parseProtocol targetUrl).isSome = true) :
    (parseProtocol (jsTrim raw) = none →
      ∃ e, createProxyAgentForProvider parseProtocol mask provider targetUrl =
        .error e) ∧
    (∀ proto, parseProtocol (jsTrim raw) = some proto →
      (((proto = "socks5:" ∨ proto = "socks4:") →
        createProxyAgentForProvider parseProtocol mask provider targetUrl =
          .ok (some ⟨.socks, provider.proxyFallbackToDirect, mask (jsTrim raw)⟩)) ∧
       ((proto = "http:" ∨ proto = "https:") →
        createProxyAgentForProvider parseProtocol mask provider targetUrl =
          .ok (some ⟨.httpProxy, provider.proxyFallbackToDirect,
            mask (jsTrim raw)⟩)) ∧
       (proto ≠ "socks5:" → proto ≠ "socks4:" → proto ≠ "http:" →
        proto ≠ "https:" →
        ∃ e, createProxyAgentForProvider parseProtocol mask provider targetUrl =
          .error e))) ∧
    createProxyAgentForProvider parseProtocol mask provider targetUrl ≠
      .ok none := by
  have hraw : ¬ raw = "" := by
    intro h
    apply hblank
    rw [h]
    rfl
  rcases Option.isSome_iff_exists.mp htarget with ⟨tproto, htp⟩
  unfold createProxyAgentForProvider
  rw [hurl]
  dsimp only
  rw [if_neg hraw, if_neg hblank]
  rcases hp : parseProtocol (jsTrim raw) with _ | proto
  · refine ⟨fun _ => ⟨_, rfl⟩, ?_, ?_⟩
    · intro proto2 hq
      cases hq
    · intro h
      cases h
  · dsimp only
    refine ⟨?_, ?_, ?_⟩
    · intro h
      cases h
    · intro proto2 hq
      have hq2 : proto2 = proto := by
        cases hq
        rfl
      subst hq2
      refine ⟨?_, ?_, ?_⟩
      · intro hsp
        rw [if_pos hsp, htp]
      · intro hhp
        have hnsp : ¬ (proto2 = "socks5:" ∨ proto2 = "socks4:") := by
          rcases hhp with h | h <;> subst h <;> simp
        rw [if_neg hnsp, if_pos hhp, htp]
      · intro h5 h4 hh hhs
        have hnsp : ¬ (proto2 = "socks5:" ∨ proto2 = "socks4:") := by
          rintro (h | h) <;> contradiction
        have hnhp : ¬ (proto2 = "http:" ∨ proto2 = "https:") := by
          rintro (h | h) <;> contradiction
        rw [if_neg hnsp, if_neg hnhp]
        exact ⟨_, rfl⟩
    · by_cases hsp : (proto = "socks5:" ∨ proto = "socks4:")
      · rw [if_pos hsp, htp]
        intro h
        cases h
      · rw [if_neg hsp]
        by_cases hhp : (proto = "http:" ∨ proto = "https:")
        · rw [if_pos hhp, htp]
          intro h
          cases h
        · rw [if_neg hhp]
          intro h
          cases h

theorem proxy_agent_selection_witness :
    jsTrim "socks5://proxy:1080" ≠ "" ∧
    (wParse "https://api.example.com").isSome = true ∧
    createProxyAgentForProvider wParse (fun u => u)
      ⟨1, none, some "socks5://proxy:1080", false⟩ "https://api.example.com" =
      .ok (some ⟨.socks, false, "socks5://proxy:1080"⟩) := by
  refine ⟨by decide, by decide, ?_⟩
  have h := proxy_agent_selection wParse (fun u => u)
    ⟨1, none, some "socks5://proxy:1080", false⟩ "https://api.example.com"
    "socks5://proxy:1080" rfl (by decide) (by decide)
  have h2 := (h.2.1 "socks5:" (by decide)).1 (Or.inl rfl)
  rw [show jsTrim "socks5://proxy:1080" = "socks5://proxy:1080" from by decide]
    at h2
  exact h2

end CCH
